import Mathlib

/-!
Shallow embedding of the scheduling core of `src/drink_water.py`
(a per-subscriber recurring water-reminder bot).

Modelling conventions:
* A local clock time (`datetime.time`) is a number of seconds since
  midnight (`Nat`); Python compares `time` values lexicographically on
  (hour, minute, second, microsecond), which coincides with the linear
  order on seconds-of-day.
* A timezone-local `datetime` is an `Instant`: a (day index, second of
  day) pair, compared lexicographically exactly as Python compares
  `datetime` values within one timezone.
* Python dicts (`reminders`, `jobs`) are association lists; chat ids are
  `Nat` (the string keys `str(chat_id)` are the canonical decimal
  renderings, in bijection with the ids, so we key directly by the id).
* The pytz database is an abstract predicate `known : String → Bool`;
  `pytz.timezone(name)` succeeds exactly when `known name = true`.
  `datetime.now(tz)` is an oracle `loc : String → Instant` giving the
  current local datetime in each zone.
* The live jobs of the job queue are an explicit list (`queue`), so that
  "exactly one active timer" and "replace, not stack" are real
  statements: creating a job appends to the queue, and
  `Job.schedule_removal()` removes that job from it.
* Raised Python exceptions are modelled by `Option`/a `Bool` success
  flag; the `try/except` fallbacks of the source become the
  corresponding `match` fallbacks.
-/

/-- Association-list lookup, i.e. Python `d.get(k)` / `d[k]`. -/
def lookupA {κ α : Type} [DecidableEq κ] : List (κ × α) → κ → Option α
  | [], _ => none
  | (k, v) :: rest, k' => if k = k' then some v else lookupA rest k'

/-- Remove a key from a dict, i.e. Python `del d[k]` (no-op if absent). -/
def removeKey {κ α : Type} [DecidableEq κ] (l : List (κ × α)) (k : κ) : List (κ × α) :=
  l.filter (fun p => decide (p.1 ≠ k))

/-- Set a key in a dict, i.e. Python `d[k] = v`. -/
def setKey {κ α : Type} [DecidableEq κ] (l : List (κ × α)) (k : κ) (v : α) : List (κ × α) :=
  (k, v) :: removeKey l k

/-- One stored reminder configuration: the value of `reminders[str(chat_id)]`,
    a dict `{"tz": ..., "start": "HH:MM", "end": "HH:MM", "freq": minutes}`.
    The `tz` field is optional because `reminder_job`/`schedule_for_chat`
    read it with `entry.get("tz", SERVER_TZ)`. -/
structure Entry where
  tz : Option String
  start : String
  endT : String
  freq : Int
deriving DecidableEq

/-- Characters stripped by `str.strip()` (the whitespace relevant here). -/
def isSpaceChar (c : Char) : Bool :=
  c = ' ' || c = '\t' || c = '\n' || c = '\r'

/-- `str.strip()` on a character list. -/
def trimChars (cs : List Char) : List Char :=
  ((cs.dropWhile isSpaceChar).reverse.dropWhile isSpaceChar).reverse

/-- Split a character list at each `:` (Python `str.split(":")`-like; used
    to model what `strptime(s, "%H:%M")` matches). -/
def splitColon : List Char → List (List Char)
  | [] => [[]]
  | c :: rest =>
    if c = ':' then [] :: splitColon rest
    else
      match splitColon rest with
      | [] => [[c]]
      | g :: gs => (c :: g) :: gs

/-- A 1- or 2-digit decimal field, as matched by `strptime`'s `%H`/`%M`. -/
def parseNum2 : List Char → Option Nat
  | [c] => if c.isDigit then some (c.toNat - 48) else none
  | [c1, c2] =>
    if c1.isDigit && c2.isDigit then some ((c1.toNat - 48) * 10 + (c2.toNat - 48)) else none
  | _ => none

/-- `parse_hm` (line 54): `datetime.strptime(s.strip(), "%H:%M").time()`,
    returned as seconds since midnight. `%H` accepts 1–2 digits `0..23`,
    `%M` accepts 1–2 digits `0..59`; anything else raises, i.e. `none`. -/
def parse_hm (s : String) : Option Nat :=
  match splitColon (trimChars s.toList) with
  | [hs, ms] =>
    match parseNum2 hs, parseNum2 ms with
    | some h, some m => if h < 24 && m < 60 then some (h * 3600 + m * 60) else none
    | _, _ => none
  | _ => none

/-- `is_within_window` (lines 57–62): same-day interval when
    `start_t < end_t`, otherwise the overnight branch. -/
def is_within_window (now_time start_t end_t : Nat) : Bool :=
  if start_t < end_t then
    decide (start_t ≤ now_time ∧ now_time < end_t)
  else
    decide (now_time ≥ start_t ∨ now_time < end_t)

/-- A timezone-local datetime: day index and second of day. -/
structure Instant where
  day : Nat
  sec : Nat
deriving DecidableEq

/-- Python `datetime` strict comparison (lexicographic), as a Bool. -/
def instLTb (a b : Instant) : Bool :=
  a.day < b.day || (a.day = b.day && a.sec < b.sec)

/-- Python `datetime` comparison `a <= b`, as a Prop. -/
def instLE (a b : Instant) : Prop :=
  a.day < b.day ∨ (a.day = b.day ∧ a.sec ≤ b.sec)

instance : DecidablePred fun p : Instant × Instant => instLE p.1 p.2 := by
  intro p; unfold instLE; infer_instance

/-- `next_run_after` (lines 64–69): `candidate` is today at time `t`;
    if `candidate < now` move to tomorrow. -/
def next_run_after (t : Nat) (now : Instant) : Instant :=
  let candidate : Instant := ⟨now.day, t⟩
  if instLTb candidate now then ⟨now.day + 1, t⟩ else candidate

/-- `SERVER_TZ = os.environ.get("TZ", "UTC")` (line 20). -/
def serverTzOf (tzEnv : Option String) : String :=
  tzEnv.getD "UTC"

/-- The `try: tz = pytz.timezone(entry.get("tz", SERVER_TZ)) except:
    tz = pytz.timezone(SERVER_TZ)` idiom (lines 78–81 and 103–106).
    `none` means even the fallback `pytz.timezone(SERVER_TZ)` raised. -/
def resolveTz (known : String → Bool) (serverTz : String) (tzField : Option String) :
    Option String :=
  let name := tzField.getD serverTz
  if known name then some name
  else if known serverTz then some serverTz
  else none

/-- The durable storage (`reminders.json`) as seen by `load_data`:
    present with (decoded) content, missing, or corrupt/unreadable. -/
inductive FileState where
  | ok (m : List (Nat × Entry))
  | missing
  | corrupt
deriving DecidableEq

/-- `load_data` (lines 34–44): returns the file's mapping; on
    `FileNotFoundError` or any other exception, logs and leaves
    `reminders = {}`. Total: it never propagates an error. -/
def load_data : FileState → List (Nat × Entry)
  | FileState.ok m => m
  | FileState.missing => []
  | FileState.corrupt => []

/-- One live repeating job of the job queue, as created by
    `app.job_queue.run_repeating(reminder_job, interval=interval_seconds,
    first=first_run, chat_id=chat_id, name=key)` (line 112). -/
structure Job where
  key : Nat
  jobId : Nat
  first : Instant
  intervalSec : Int
deriving DecidableEq

/-- The bot's mutable state: the two module-level dicts, the job queue's
    live jobs, a fresh-id counter for newly created jobs, and the
    durable file. -/
structure BotState where
  reminders : List (Nat × Entry)
  jobsMap : List (Nat × Nat)
  queue : List Job
  nextId : Nat
  file : FileState

/-- Number of live jobs in the queue belonging to a chat id. -/
def qcount : List Job → Nat → Nat
  | [], _ => 0
  | jb :: rest, k => (if jb.key = k then 1 else 0) + qcount rest k

/-- `jobs[key].schedule_removal()`: remove the handle's job from the
    live queue. The handle is identified by its owner and job id. -/
def removeJob (q : List Job) (k j : Nat) : List Job :=
  q.filter (fun jb => decide (¬(jb.key = k ∧ jb.jobId = j)))

/-- The `if key in jobs: jobs[key].schedule_removal(); del jobs[key]`
    idiom (lines 97–99 and 207–209). -/
def cancelJob (s : BotState) (k : Nat) : BotState :=
  match lookupA s.jobsMap k with
  | some j => { s with queue := removeJob s.queue k j, jobsMap := removeKey s.jobsMap k }
  | none => s

/-- `schedule_for_chat` (lines 94–115): cancel any existing job, then, if
    a reminder entry exists, resolve its timezone, parse its start time,
    compute the first run and install a repeating job. The `Bool` is the
    success flag: `false` means an exception escaped (unknown fallback
    timezone or unparseable start time); the state returned alongside
    `false` keeps the mutations already performed (the cancellation). -/
def schedule_for_chat (known : String → Bool) (serverTz : String) (loc : String → Instant)
    (s : BotState) (chatId : Nat) : BotState × Bool :=
  let s1 := cancelJob s chatId
  match lookupA s1.reminders chatId with
  | none => (s1, true)
  | some e =>
    match resolveTz known serverTz e.tz with
    | none => (s1, false)
    | some tzName =>
      match parse_hm e.start with
      | none => (s1, false)
      | some start_t =>
        let first_run := next_run_after start_t (loc tzName)
        let newJob : Job := ⟨chatId, s1.nextId, first_run, e.freq * 60⟩
        ({ s1 with
            queue := s1.queue ++ [newJob],
            jobsMap := setKey s1.jobsMap chatId s1.nextId,
            nextId := s1.nextId + 1 }, true)

/-- Outcome of one firing of `reminder_job`. `delivered` means
    `context.bot.send_message` was invoked (whether or not the send
    itself failed — a failed send is logged and absorbed, line 90). -/
inductive JobOutcome where
  | noRecord
  | tzError
  | parseError
  | delivered
  | skipped
deriving DecidableEq

/-- `reminder_job` (lines 72–92): re-read the *current* entry for the
    chat from `reminders`; if absent, return; resolve the timezone with
    server fallback; take the current local time in that zone; parse the
    window bounds; deliver iff inside the window. -/
def reminder_job (known : String → Bool) (serverTz : String) (loc : String → Instant)
    (reminders : List (Nat × Entry)) (chatId : Nat) : JobOutcome :=
  match lookupA reminders chatId with
  | none => JobOutcome.noRecord
  | some e =>
    match resolveTz known serverTz e.tz with
    | none => JobOutcome.tzError
    | some tzName =>
      let now_t := (loc tzName).sec
      match parse_hm e.start, parse_hm e.endT with
      | some start_t, some end_t =>
        if is_within_window now_t start_t end_t then JobOutcome.delivered
        else JobOutcome.skipped
      | _, _ => JobOutcome.parseError

/-- `ask_freq` (lines 166–174): the reply text, stripped and lowercased,
    selects 60 or 30 minutes; any other reply re-prompts (`none`). -/
def ask_freq (text : String) : Option Int :=
  let txt := (trimChars text.toList).map Char.toLower
  if txt = "every hour".toList || txt = "hourly".toList
      || txt = "1 hour".toList || txt = "1".toList then some 60
  else if txt = "every 30 minutes".toList || txt = "30 minutes".toList
      || txt = "30".toList || txt = "half".toList then some 30
  else none

/-- The operations a run of the program performs on the scheduling state.
    `configure` is the tail of `ask_freq` (lines 176–186: store the
    entry, `save_data()`, `schedule_for_chat`); `stopOp` is `/stop`
    (lines 201–210); `restoreOp` is `restore` (lines 217–223). Each
    operation that consults a clock carries its `datetime.now` oracle. -/
inductive Op where
  | configure (chatId : Nat) (e : Entry) (loc : String → Instant)
  | stopOp (chatId : Nat)
  | restoreOp (loc : String → Instant)

/-- `reminders[str(chat_id)] = {...}; save_data(); schedule_for_chat(...)`
    (lines 176–186). -/
def configureStep (known : String → Bool) (serverTz : String) (loc : String → Instant)
    (s : BotState) (chatId : Nat) (e : Entry) : BotState :=
  let s1 := { s with reminders := setKey s.reminders chatId e }
  let s2 := { s1 with file := FileState.ok s1.reminders }
  (schedule_for_chat known serverTz loc s2 chatId).1

/-- `stop` (lines 201–210): delete the entry and persist (only when it
    was present), then cancel the job (when present). -/
def stopStep (s : BotState) (chatId : Nat) : BotState :=
  let s1 :=
    if (lookupA s.reminders chatId).isSome then
      let r := removeKey s.reminders chatId
      { s with reminders := r, file := FileState.ok r }
    else s
  cancelJob s1 chatId

/-- `restore` (lines 217–223): `load_data()` replaces `reminders`, then
    each stored chat is scheduled inside a `try/except` that logs and
    continues, i.e. the fold ignores the per-chat success flag. -/
def restoreStep (known : String → Bool) (serverTz : String) (loc : String → Instant)
    (s : BotState) : BotState :=
  let loaded := load_data s.file
  let s1 := { s with reminders := loaded }
  (loaded.map Prod.fst).foldl
    (fun st k => (schedule_for_chat known serverTz loc st k).1) s1

/-- Apply one operation. -/
def applyOp (known : String → Bool) (serverTz : String) (s : BotState) : Op → BotState
  | Op.configure chatId e loc => configureStep known serverTz loc s chatId e
  | Op.stopOp chatId => stopStep s chatId
  | Op.restoreOp loc => restoreStep known serverTz loc s

/-- Apply a sequence of operations. -/
def applyOps (known : String → Bool) (serverTz : String) (s : BotState) (ops : List Op) :
    BotState :=
  ops.foldl (applyOp known serverTz) s

/-- The state at process start: empty dicts, no live jobs, and whatever
    `reminders.json` holds on disk. -/
def initState (file : FileState) : BotState :=
  ⟨[], [], [], 0, file⟩

/-- An entry whose window bounds both parse, as every entry built by the
    `/set` conversation does (`ask_start`/`ask_end` re-prompt until
    `parse_hm` succeeds). -/
def validEntry (e : Entry) : Bool :=
  (parse_hm e.start).isSome && (parse_hm e.endT).isSome

/-- Operations produced by the handlers: any `configure` carries an entry
    validated by the conversation. -/
def OpValid : Op → Prop
  | Op.configure _ e _ => validEntry e = true
  | _ => True

/-- JSON scalar values occurring in `reminders.json`. -/
inductive JValue where
  | jstr (s : String)
  | jnum (n : Int)
deriving DecidableEq

/-- The JSON object `json.dump` writes for one entry (the dict literal of
    lines 178–183; the `tz` key is present exactly when the field is). -/
def entryToJson (e : Entry) : List (String × JValue) :=
  (match e.tz with
   | some z => [("tz", JValue.jstr z)]
   | none => []) ++
  [("start", JValue.jstr e.start), ("end", JValue.jstr e.endT), ("freq", JValue.jnum e.freq)]

/-- Read a string field of a decoded JSON object. -/
def getStr (d : List (String × JValue)) (k : String) : Option String :=
  match lookupA d k with
  | some (JValue.jstr s) => some s
  | _ => none

/-- Read an integer field of a decoded JSON object. -/
def getInt (d : List (String × JValue)) (k : String) : Option Int :=
  match lookupA d k with
  | some (JValue.jnum n) => some n
  | _ => none

/-- Rebuild an `Entry` from its JSON object, reading the fields the way
    the program does (`entry["start"]`, `entry["end"]`, `entry["freq"]`,
    `entry.get("tz")`). -/
def entryOfJson (d : List (String × JValue)) : Option Entry :=
  match getStr d "start", getStr d "end", getInt d "freq" with
  | some st, some en, some fq => some ⟨getStr d "tz", st, en, fq⟩
  | _, _, _ => none

/-- `save_data` (lines 46–51): `json.dump(reminders, f)` — the whole
    mapping serialized as JSON. -/
def save_data (m : List (Nat × Entry)) : List (Nat × List (String × JValue)) :=
  m.map (fun p => (p.1, entryToJson p.2))

/-- Reading one subscriber's record back out of a dumped file. -/
def readBack (f : List (Nat × List (String × JValue))) (k : Nat) : Option Entry :=
  (lookupA f k).bind entryOfJson

/-- Bookkeeping well-formedness of the job machinery: the `jobs` dict
    points exactly at the live queue jobs, job ids are fresh below the
    counter, and no chat owns two live jobs. -/
def WfJobs (s : BotState) : Prop :=
  (∀ k j, lookupA s.jobsMap k = some j ↔ ∃ jb ∈ s.queue, jb.key = k ∧ jb.jobId = j) ∧
  (∀ jb ∈ s.queue, jb.jobId < s.nextId) ∧
  (∀ k, qcount s.queue k ≤ 1)

/-- The reachable-state invariant: well-formed job bookkeeping; one live
    job per stored reminder and none otherwise; every stored entry (in
    memory and on disk) has parseable window bounds; and the file is the
    write-through image of `reminders` (except before anything was ever
    stored, when `reminders` is empty). -/
def ReachInv (s : BotState) : Prop :=
  WfJobs s ∧
  (∀ k, qcount s.queue k = if (lookupA s.reminders k).isSome then 1 else 0) ∧
  (∀ k e, lookupA s.reminders k = some e → validEntry e = true) ∧
  (∀ k e, lookupA (load_data s.file) k = some e → validEntry e = true) ∧
  (s.file = FileState.ok s.reminders ∨ s.reminders = [])


/-! ### Association-list and queue lemmas -/

theorem lookupA_cons {κ α : Type} [DecidableEq κ] (a : κ) (v : α) (rest : List (κ × α))
    (k' : κ) : lookupA ((a, v) :: rest) k' = if a = k' then some v else lookupA rest k' := rfl

theorem qcount_cons (jb : Job) (rest : List Job) (k : Nat) :
    qcount (jb :: rest) k = (if jb.key = k then 1 else 0) + qcount rest k := rfl

theorem removeKey_cons_self {κ α : Type} [DecidableEq κ] (a : κ) (v : α)
    (rest : List (κ × α)) : removeKey ((a, v) :: rest) a = removeKey rest a := by
  simp [removeKey, List.filter_cons]

theorem removeKey_cons_ne {κ α : Type} [DecidableEq κ] (a k : κ) (v : α)
    (rest : List (κ × α)) (h : a ≠ k) :
    removeKey ((a, v) :: rest) k = (a, v) :: removeKey rest k := by
  simp [removeKey, List.filter_cons, h]

theorem lookupA_removeKey {κ α : Type} [DecidableEq κ] (l : List (κ × α)) (k k' : κ) :
    lookupA (removeKey l k) k' = if k' = k then none else lookupA l k' := by
  induction l with
  | nil => simp [removeKey, lookupA]
  | cons p rest ih =>
    obtain ⟨a, v⟩ := p
    by_cases hak : a = k
    · subst hak
      rw [removeKey_cons_self, ih, lookupA_cons]
      by_cases hk' : k' = a
      · simp [hk']
      · have h2 : ¬ a = k' := fun h => hk' h.symm
        simp [hk', h2]
    · rw [removeKey_cons_ne a k v rest hak, lookupA_cons, lookupA_cons]
      by_cases hk'k : k' = k
      · rw [hk'k] at ih
        simp [hk'k, hak, ih]
      · simp [ih, hk'k]

theorem lookupA_setKey {κ α : Type} [DecidableEq κ] (l : List (κ × α)) (k k' : κ) (v : α) :
    lookupA (setKey l k v) k' = if k = k' then some v else lookupA l k' := by
  rw [setKey, lookupA_cons]
  by_cases h : k = k'
  · simp [h]
  · rw [if_neg h, if_neg h, lookupA_removeKey, if_neg (fun h' : k' = k => h h'.symm)]

theorem lookupA_none_of_not_mem {κ α : Type} [DecidableEq κ] (l : List (κ × α)) (k : κ)
    (h : k ∉ l.map Prod.fst) : lookupA l k = none := by
  induction l with
  | nil => rfl
  | cons p rest ih =>
    obtain ⟨a, v⟩ := p
    simp only [List.map, List.mem_cons, not_or] at h
    rw [lookupA_cons, if_neg (fun h' => h.1 h'.symm), ih h.2]

theorem mem_keys_of_lookupA {κ α : Type} [DecidableEq κ] (l : List (κ × α)) (k : κ) (v : α)
    (h : lookupA l k = some v) : k ∈ l.map Prod.fst := by
  by_contra hmem
  rw [lookupA_none_of_not_mem l k hmem] at h
  exact Option.noConfusion h

theorem qcount_append (q1 q2 : List Job) (k : Nat) :
    qcount (q1 ++ q2) k = qcount q1 k + qcount q2 k := by
  induction q1 with
  | nil => simp [qcount]
  | cons jb rest ih =>
    rw [List.cons_append, qcount_cons, qcount_cons, ih]
    omega

theorem qcount_eq_zero_iff (q : List Job) (k : Nat) :
    qcount q k = 0 ↔ ∀ jb ∈ q, jb.key ≠ k := by
  induction q with
  | nil => simp [qcount]
  | cons jb rest ih =>
    by_cases h : jb.key = k
    · rw [qcount_cons, if_pos h]
      constructor
      · intro h0
        exact absurd h0 (by omega)
      · intro hall
        exact absurd h (hall jb (List.mem_cons_self jb rest))
    · rw [qcount_cons, if_neg h, Nat.zero_add, ih]
      constructor
      · intro h1 x hx
        rcases List.mem_cons.mp hx with rfl | hx'
        · exact h
        · exact h1 x hx'
      · intro h1 x hx
        exact h1 x (List.mem_cons_of_mem _ hx)

theorem mem_removeJob (q : List Job) (k j : Nat) (jb : Job) :
    jb ∈ removeJob q k j ↔ jb ∈ q ∧ ¬(jb.key = k ∧ jb.jobId = j) := by
  simp only [removeJob, List.mem_filter, decide_eq_true_eq]

theorem qcount_removeJob_ne (q : List Job) (k j k' : Nat) (h : k' ≠ k) :
    qcount (removeJob q k j) k' = qcount q k' := by
  induction q with
  | nil => rfl
  | cons jb rest ih =>
    by_cases hk : jb.key = k ∧ jb.jobId = j
    · have h1 : removeJob (jb :: rest) k j = removeJob rest k j := by
        simp [removeJob, List.filter_cons, hk.1, hk.2]
      have h2 : jb.key ≠ k' := fun h' => h (h'.symm.trans hk.1)
      rw [h1, ih, qcount_cons, if_neg h2, Nat.zero_add]
    · have h1 : removeJob (jb :: rest) k j = jb :: removeJob rest k j := by
        simp [removeJob, List.filter_cons, hk]
      rw [h1, qcount_cons, qcount_cons, ih]

theorem qcount_pos_of_mem (q : List Job) (k : Nat) (jb : Job)
    (hmem : jb ∈ q) (hk : jb.key = k) : 1 ≤ qcount q k := by
  induction q with
  | nil => cases hmem
  | cons x rest ih =>
    rcases List.mem_cons.mp hmem with rfl | h'
    · rw [qcount_cons, if_pos hk]
      omega
    · have := ih h'
      rw [qcount_cons]
      omega

theorem two_le_qcount (q : List Job) (k : Nat) (jb w : Job)
    (hjb : jb ∈ q) (hw : w ∈ q) (hne : jb ≠ w)
    (hjbk : jb.key = k) (hwk : w.key = k) : 2 ≤ qcount q k := by
  induction q with
  | nil => cases hjb
  | cons x rest ih =>
    rcases List.mem_cons.mp hjb with rfl | hjb'
    · rcases List.mem_cons.mp hw with rfl | hw'
      · exact absurd rfl hne
      · have := qcount_pos_of_mem rest k w hw' hwk
        rw [qcount_cons, if_pos hjbk]
        omega
    · rcases List.mem_cons.mp hw with rfl | hw'
      · have := qcount_pos_of_mem rest k jb hjb' hjbk
        rw [qcount_cons, if_pos hwk]
        omega
      · have := ih hjb' hw'
        rw [qcount_cons]
        omega

theorem removeJob_no_key (q : List Job) (k j : Nat)
    (hle : qcount q k ≤ 1) (hmem : ∃ jb ∈ q, jb.key = k ∧ jb.jobId = j) :
    ∀ jb ∈ removeJob q k j, jb.key ≠ k := by
  intro jb hjb hkey
  obtain ⟨w, hw, hwk, hwj⟩ := hmem
  rw [mem_removeJob] at hjb
  have hne : jb ≠ w := by
    intro h
    exact hjb.2 ⟨hkey, h ▸ hwj⟩
  have := two_le_qcount q k jb w hjb.1 hw hne hkey hwk
  omega

theorem qcount_removeJob_self (q : List Job) (k j : Nat)
    (hle : qcount q k ≤ 1) (hmem : ∃ jb ∈ q, jb.key = k ∧ jb.jobId = j) :
    qcount (removeJob q k j) k = 0 :=
  (qcount_eq_zero_iff _ _).mpr (removeJob_no_key q k j hle hmem)

/-! ### C1, C2: the window evaluator -/

/-- C1: for `start < end`, `is_within_window t start end` is true iff
    `start ≤ t < end`; in particular the start boundary is inside and the
    end boundary is outside. -/
theorem c1_same_day_window (t start_t end_t : Nat) (h : start_t < end_t) :
    (is_within_window t start_t end_t = true ↔ start_t ≤ t ∧ t < end_t) ∧
    is_within_window start_t start_t end_t = true ∧
    is_within_window end_t start_t end_t = false := by
  refine ⟨?_, ?_, ?_⟩
  · rw [is_within_window, if_pos h]
    simp
  · rw [is_within_window, if_pos h]
    simp [h]
  · rw [is_within_window, if_pos h]
    simp

theorem c1_same_day_window_witness :
    (is_within_window 36000 32400 64800 = true ↔ 32400 ≤ 36000 ∧ 36000 < 64800) ∧
    is_within_window 32400 32400 64800 = true ∧
    is_within_window 64800 32400 64800 = false :=
  c1_same_day_window 36000 32400 64800 (by decide)

/-- C2: for `start ≥ end` (overnight, including the degenerate
    `start = end`), `is_within_window t start end` is true iff
    `t ≥ start` or `t < end`. -/
theorem c2_overnight_window (t start_t end_t : Nat) (h : start_t ≥ end_t) :
    is_within_window t start_t end_t = true ↔ t ≥ start_t ∨ t < end_t := by
  rw [is_within_window, if_neg (by omega)]
  simp

theorem c2_overnight_window_witness :
    is_within_window 84600 79200 21600 = true ↔ 84600 ≥ 79200 ∨ 84600 < 21600 :=
  c2_overnight_window 84600 79200 21600 (by decide)

/-! ### C3: the first-fire computation -/

/-- C3: `next_run_after t now` is the least instant at or after `now`
    whose time-of-day is `t`: its time-of-day is `t`, it is `≥ now`, it
    is minimal among such instants, and it falls today exactly when the
    start time has not yet passed (ties included), else tomorrow. -/
theorem c3_next_run_after (t : Nat) (now : Instant) :
    (next_run_after t now).sec = t ∧
    instLE now (next_run_after t now) ∧
    (∀ u : Instant, u.sec = t → instLE now u → instLE (next_run_after t now) u) ∧
    (now.sec ≤ t → next_run_after t now = ⟨now.day, t⟩) ∧
    (t < now.sec → next_run_after t now = ⟨now.day + 1, t⟩) := by
  obtain ⟨d, ns⟩ := now
  by_cases h : t < ns
  · have hb : instLTb ⟨d, t⟩ ⟨d, ns⟩ = true := by
      simp [instLTb, h]
    have hnext : next_run_after t ⟨d, ns⟩ = ⟨d + 1, t⟩ := by
      simp [next_run_after, hb]
    rw [hnext]
    refine ⟨rfl, Or.inl (show d < d + 1 by omega), ?_, ?_, fun _ => rfl⟩
    · rintro ⟨ud, us⟩ hu hle
      have hu' : us = t := hu
      have hle' : d < ud ∨ (d = ud ∧ ns ≤ us) := hle
      show d + 1 < ud ∨ (d + 1 = ud ∧ t ≤ us)
      omega
    · intro h'
      exact absurd (show ns ≤ t from h') (by omega)
  · have hb : instLTb ⟨d, t⟩ ⟨d, ns⟩ = false := by
      simp [instLTb, h]
    have hnext : next_run_after t ⟨d, ns⟩ = ⟨d, t⟩ := by
      simp [next_run_after, hb]
    rw [hnext]
    refine ⟨rfl, Or.inr ⟨rfl, show ns ≤ t by omega⟩, ?_, fun _ => rfl, ?_⟩
    · rintro ⟨ud, us⟩ hu hle
      have hu' : us = t := hu
      have hle' : d < ud ∨ (d = ud ∧ ns ≤ us) := hle
      show d < ud ∨ (d = ud ∧ t ≤ us)
      omega
    · intro h'
      exact absurd (show t < ns from h') (by omega)

/-! ### C5: accepted reminder frequencies -/

/-- C5 counterexample: no reply whatsoever makes the configuration
    conversation accept an interval of 45 minutes, although 45 is a
    positive integer — `ask_freq` only ever produces 60 or 30. -/
theorem c5_counterexample : ¬ ∃ s, ask_freq s = some 45 := by
  rintro ⟨s, h⟩
  simp only [ask_freq] at h
  split at h
  · simp at h
  · split at h
    · simp at h
    · simp at h

/-- C5 (amended): the configuration conversation accepts exactly the
    intervals 60 and 30 minutes, chosen by fixed (trimmed, lowercased)
    reply phrases; any other reply — including the textual form of any
    other positive integer — is re-prompted (`none`), and no
    `InvalidInterval` failure exists. -/
theorem c5_fixed_frequencies :
    (∀ s, ask_freq s = none ∨ ask_freq s = some 60 ∨ ask_freq s = some 30) ∧
    ask_freq "Every hour" = some 60 ∧
    ask_freq "hourly" = some 60 ∧
    ask_freq " every 30 minutes " = some 30 ∧
    ask_freq "half" = some 30 ∧
    ask_freq "45" = none ∧
    ask_freq "every 45 minutes" = none := by
  refine ⟨?_, by decide, by decide, by decide, by decide, by decide, by decide⟩
  intro s
  simp only [ask_freq]
  split
  · exact Or.inr (Or.inl rfl)
  · split
    · exact Or.inr (Or.inr rfl)
    · exact Or.inl rfl

/-! ### C7: persistence round trip -/

theorem entryOfJson_entryToJson (e : Entry) : entryOfJson (entryToJson e) = some e := by
  obtain ⟨tz, st, en, fq⟩ := e
  cases tz with
  | none => rfl
  | some z => rfl

/-- C7: storing a record (`reminders[k] = entry; save_data()`) and then
    re-reading durable storage (as `load_data` does after a restart)
    yields a record equal to the original in all fields. -/
theorem c7_round_trip (m : List (Nat × Entry)) (k : Nat) (e : Entry) :
    readBack (save_data (setKey m k e)) k = some e := by
  rw [readBack]
  have h1 : save_data (setKey m k e) = (k, entryToJson e) :: save_data (removeKey m k) := by
    simp [save_data, setKey]
  rw [h1, lookupA_cons, if_pos rfl]
  simp [entryOfJson_entryToJson]

/-! ### C8: fail-open loading -/

/-- C8: `load_data` is total (it never propagates an error): it returns
    the stored mapping when the file is readable, and the empty mapping
    when the file is missing or corrupt; a `restore` over a corrupt file
    proceeds with zero subscribers. -/
theorem c8_load_data_fail_open :
    (∀ d, load_data (FileState.ok d) = d) ∧
    load_data FileState.missing = [] ∧
    load_data FileState.corrupt = [] ∧
    (∀ (known : String → Bool) (serverTz : String) (loc : String → Instant) (s : BotState),
      s.file = FileState.corrupt →
      (applyOp known serverTz s (Op.restoreOp loc)).reminders = []) := by
  refine ⟨fun d => rfl, rfl, rfl, ?_⟩
  intro known serverTz loc s h
  simp [applyOp, restoreStep, h, load_data]

theorem c8_load_data_fail_open_witness :
    (applyOp (fun _ => true) "UTC" (initState FileState.corrupt)
      (Op.restoreOp (fun _ => ⟨0, 0⟩))).reminders = [] :=
  c8_load_data_fail_open.2.2.2 _ _ _ _ rfl

/-! ### Timer-registry machinery lemmas -/

theorem resolveTz_isSome (known : String → Bool) (serverTz : String) (tzField : Option String)
    (h : known serverTz = true) : (resolveTz known serverTz tzField).isSome = true := by
  simp only [resolveTz]
  split <;> simp_all

theorem resolveTz_fallback (known : String → Bool) (serverTz : String) (tzField : Option String)
    (h : known serverTz = true) (hun : known (tzField.getD serverTz) = false) :
    resolveTz known serverTz tzField = some serverTz := by
  simp only [resolveTz]
  rw [if_neg (by simp [hun]), if_pos h]

theorem cancelJob_reminders (s : BotState) (k : Nat) :
    (cancelJob s k).reminders = s.reminders ∧ (cancelJob s k).file = s.file ∧
    (cancelJob s k).nextId = s.nextId := by
  unfold cancelJob
  split <;> exact ⟨rfl, rfl, rfl⟩

theorem cancelJob_spec (s : BotState) (k : Nat) (hw : WfJobs s) :
    WfJobs (cancelJob s k) ∧
    qcount (cancelJob s k).queue k = 0 ∧
    (∀ k', k' ≠ k → qcount (cancelJob s k).queue k' = qcount s.queue k') ∧
    (∀ jb, jb ∈ (cancelJob s k).queue → jb ∈ s.queue) := by
  obtain ⟨hsync, hfresh, hle⟩ := hw
  cases hj : lookupA s.jobsMap k with
  | none =>
    have hcancel : cancelJob s k = s := by
      unfold cancelJob
      rw [hj]
    rw [hcancel]
    have hzero : qcount s.queue k = 0 := by
      refine (qcount_eq_zero_iff _ _).mpr ?_
      intro jb hjb hkey
      have := (hsync k jb.jobId).mpr ⟨jb, hjb, hkey, rfl⟩
      rw [hj] at this
      exact Option.noConfusion this
    exact ⟨⟨hsync, hfresh, hle⟩, hzero, fun _ _ => rfl, fun _ h => h⟩
  | some j =>
    have hwit : ∃ jb ∈ s.queue, jb.key = k ∧ jb.jobId = j := (hsync k j).mp hj
    have hcancel : cancelJob s k =
        { s with queue := removeJob s.queue k j, jobsMap := removeKey s.jobsMap k } := by
      unfold cancelJob
      rw [hj]
    rw [hcancel]
    have hnokey : ∀ jb ∈ removeJob s.queue k j, jb.key ≠ k :=
      removeJob_no_key s.queue k j (hle k) hwit
    have hzero : qcount (removeJob s.queue k j) k = 0 :=
      (qcount_eq_zero_iff _ _).mpr hnokey
    refine ⟨⟨?_, ?_, ?_⟩, hzero, ?_, ?_⟩
    · intro k' j'
      by_cases hk' : k' = k
      · subst hk'
        rw [lookupA_removeKey, if_pos rfl]
        constructor
        · intro h
          exact Option.noConfusion h
        · rintro ⟨jb, hjb, hkey, _⟩
          exact absurd hkey (hnokey jb hjb)
      · rw [lookupA_removeKey, if_neg hk']
        rw [hsync k' j']
        constructor
        · rintro ⟨jb, hjb, hkey, hid⟩
          refine ⟨jb, ?_, hkey, hid⟩
          rw [mem_removeJob]
          exact ⟨hjb, fun hc => hk' (hkey ▸ hc.1 ▸ rfl)⟩
        · rintro ⟨jb, hjb, hkey, hid⟩
          exact ⟨jb, (mem_removeJob _ _ _ _).mp hjb |>.1, hkey, hid⟩
    · intro jb hjb
      exact hfresh jb ((mem_removeJob _ _ _ _).mp hjb).1
    · intro k'
      by_cases hk' : k' = k
      · subst hk'
        rw [hzero]
        omega
      · rw [qcount_removeJob_ne _ _ _ _ hk']
        exact hle k'
    · intro k' hk'
      exact qcount_removeJob_ne _ _ _ _ hk'
    · intro jb hjb
      exact ((mem_removeJob _ _ _ _).mp hjb).1

theorem createJob_wf (s1 : BotState) (k : Nat) (first : Instant) (iv : Int)
    (hw : WfJobs s1) (h0 : qcount s1.queue k = 0) :
    WfJobs { s1 with
        queue := s1.queue ++ [⟨k, s1.nextId, first, iv⟩],
        jobsMap := setKey s1.jobsMap k s1.nextId,
        nextId := s1.nextId + 1 } ∧
    qcount (s1.queue ++ [⟨k, s1.nextId, first, iv⟩]) k = 1 ∧
    (∀ k', k' ≠ k → qcount (s1.queue ++ [⟨k, s1.nextId, first, iv⟩]) k' = qcount s1.queue k') := by
  obtain ⟨hsync, hfresh, hle⟩ := hw
  have hnew : (⟨k, s1.nextId, first, iv⟩ : Job).key = k := rfl
  have hnokey : ∀ jb ∈ s1.queue, jb.key ≠ k := (qcount_eq_zero_iff _ _).mp h0
  have hcount : qcount (s1.queue ++ [⟨k, s1.nextId, first, iv⟩]) k = 1 := by
    rw [qcount_append, h0, Nat.zero_add, qcount_cons, if_pos hnew]
    rfl
  have hcount' : ∀ k', k' ≠ k →
      qcount (s1.queue ++ [⟨k, s1.nextId, first, iv⟩]) k' = qcount s1.queue k' := by
    intro k' hk'
    rw [qcount_append, qcount_cons, if_neg (fun h => hk' (hnew.symm.trans h).symm)]
    rfl
  refine ⟨⟨?_, ?_, ?_⟩, hcount, hcount'⟩
  · intro k' j'
    by_cases hk' : k' = k
    · subst hk'
      rw [lookupA_setKey, if_pos rfl]
      constructor
      · intro h
        refine ⟨⟨k', s1.nextId, first, iv⟩, ?_, rfl, ?_⟩
        · exact List.mem_append_right _ (List.mem_singleton.mpr rfl)
        · exact Option.some.inj h
      · rintro ⟨jb, hjb, hkey, hid⟩
        rcases List.mem_append.mp hjb with hq | hs
        · exact absurd hkey (hnokey jb hq)
        · rw [List.mem_singleton.mp hs] at hid
          rw [← hid]
    · rw [lookupA_setKey, if_neg (fun h => hk' h.symm), hsync k' j']
      constructor
      · rintro ⟨jb, hjb, hkey, hid⟩
        exact ⟨jb, List.mem_append_left _ hjb, hkey, hid⟩
      · rintro ⟨jb, hjb, hkey, hid⟩
        rcases List.mem_append.mp hjb with hq | hs
        · exact ⟨jb, hq, hkey, hid⟩
        · exfalso
          rw [List.mem_singleton.mp hs] at hkey
          exact hk' (hkey ▸ rfl)
  · intro jb hjb
    rcases List.mem_append.mp hjb with hq | hs
    · have := hfresh jb hq
      show jb.jobId < s1.nextId + 1
      omega
    · rw [List.mem_singleton.mp hs]
      show s1.nextId < s1.nextId + 1
      omega
  · intro k'
    by_cases hk' : k' = k
    · subst hk'
      rw [hcount]
    · rw [hcount' k' hk']
      exact hle k'

theorem schedule_for_chat_spec (known : String → Bool) (serverTz : String)
    (loc : String → Instant) (s : BotState) (chatId : Nat) (hw : WfJobs s) :
    WfJobs (schedule_for_chat known serverTz loc s chatId).1 ∧
    (schedule_for_chat known serverTz loc s chatId).1.reminders = s.reminders ∧
    (schedule_for_chat known serverTz loc s chatId).1.file = s.file ∧
    (∀ k', k' ≠ chatId →
      qcount (schedule_for_chat known serverTz loc s chatId).1.queue k' = qcount s.queue k') ∧
    (known serverTz = true →
      (∀ e, lookupA s.reminders chatId = some e → (parse_hm e.start).isSome = true) →
      ((schedule_for_chat known serverTz loc s chatId).2 = true ∧
       qcount (schedule_for_chat known serverTz loc s chatId).1.queue chatId =
         if (lookupA s.reminders chatId).isSome then 1 else 0)) := by
  obtain ⟨hwc, hq0, hqo, hsub⟩ := cancelJob_spec s chatId hw
  obtain ⟨hrem, hfile, hnid⟩ := cancelJob_reminders s chatId
  cases hre : lookupA (cancelJob s chatId).reminders chatId with
  | none =>
    have heq : schedule_for_chat known serverTz loc s chatId = (cancelJob s chatId, true) := by
      simp only [schedule_for_chat, hre]
    rw [heq]
    refine ⟨hwc, hrem, hfile, hqo, fun _ _ => ⟨rfl, ?_⟩⟩
    rw [hrem] at hre
    rw [hre]
    simpa using hq0
  | some e =>
    cases hrt : resolveTz known serverTz e.tz with
    | none =>
      have heq : schedule_for_chat known serverTz loc s chatId = (cancelJob s chatId, false) := by
        simp only [schedule_for_chat, hre, hrt]
      rw [heq]
      refine ⟨hwc, hrem, hfile, hqo, fun hk _ => ?_⟩
      exfalso
      have hsome := resolveTz_isSome known serverTz e.tz hk
      rw [hrt] at hsome
      simp at hsome
    | some tzName =>
      cases hp : parse_hm e.start with
      | none =>
        have heq : schedule_for_chat known serverTz loc s chatId =
            (cancelJob s chatId, false) := by
          simp only [schedule_for_chat, hre, hrt, hp]
        rw [heq]
        refine ⟨hwc, hrem, hfile, hqo, fun hk hv => ?_⟩
        exfalso
        rw [hrem] at hre
        have hps := hv e hre
        rw [hp] at hps
        simp at hps
      | some start_t =>
        have heq : schedule_for_chat known serverTz loc s chatId =
            ({ cancelJob s chatId with
                queue := (cancelJob s chatId).queue ++
                  [⟨chatId, (cancelJob s chatId).nextId,
                    next_run_after start_t (loc tzName), e.freq * 60⟩],
                jobsMap := setKey (cancelJob s chatId).jobsMap chatId
                  (cancelJob s chatId).nextId,
                nextId := (cancelJob s chatId).nextId + 1 }, true) := by
          simp only [schedule_for_chat, hre, hrt, hp]
        obtain ⟨hw2, hc1, hc2⟩ := createJob_wf (cancelJob s chatId) chatId
          (next_run_after start_t (loc tzName)) (e.freq * 60) hwc hq0
        rw [heq]
        refine ⟨hw2, hrem, hfile, ?_, ?_⟩
        · intro k' hk'
          exact (hc2 k' hk').trans (hqo k' hk')
        · intro _ _
          refine ⟨rfl, ?_⟩
          rw [hrem] at hre
          rw [hre]
          simpa using hc1

theorem schedule_for_chat_reminders (known : String → Bool) (serverTz : String)
    (loc : String → Instant) (s : BotState) (chatId : Nat) :
    (schedule_for_chat known serverTz loc s chatId).1.reminders = s.reminders ∧
    (schedule_for_chat known serverTz loc s chatId).1.file = s.file := by
  obtain ⟨hrem, hfile, _⟩ := cancelJob_reminders s chatId
  cases hre : lookupA (cancelJob s chatId).reminders chatId with
  | none =>
    simp only [schedule_for_chat, hre]
    exact ⟨hrem, hfile⟩
  | some e =>
    cases hrt : resolveTz known serverTz e.tz with
    | none =>
      simp only [schedule_for_chat, hre, hrt]
      exact ⟨hrem, hfile⟩
    | some tzName =>
      cases hp : parse_hm e.start with
      | none =>
        simp only [schedule_for_chat, hre, hrt, hp]
        exact ⟨hrem, hfile⟩
      | some start_t =>
        simp only [schedule_for_chat, hre, hrt, hp]
        exact ⟨hrem, hfile⟩

theorem foldSched_spec (known : String → Bool) (serverTz : String) (loc : String → Instant)
    (hk : known serverTz = true) :
    ∀ (keys : List Nat) (st : BotState), WfJobs st →
    (∀ k e, lookupA st.reminders k = some e → (parse_hm e.start).isSome = true) →
    (WfJobs (keys.foldl (fun st k => (schedule_for_chat known serverTz loc st k).1) st) ∧
     (keys.foldl (fun st k => (schedule_for_chat known serverTz loc st k).1) st).reminders =
       st.reminders ∧
     (keys.foldl (fun st k => (schedule_for_chat known serverTz loc st k).1) st).file = st.file ∧
     (∀ k, qcount (keys.foldl (fun st k => (schedule_for_chat known serverTz loc st k).1)
          st).queue k =
        if k ∈ keys then (if (lookupA st.reminders k).isSome then 1 else 0)
        else qcount st.queue k)) := by
  intro keys
  induction keys with
  | nil =>
    intro st hw hv
    refine ⟨hw, rfl, rfl, fun k => ?_⟩
    simp
  | cons k0 rest ih =>
    intro st hw hv
    simp only [List.foldl_cons]
    obtain ⟨hw1, hrem1, hfile1, hqo1, hsucc⟩ :=
      schedule_for_chat_spec known serverTz loc st k0 hw
    obtain ⟨hflag, hq1⟩ := hsucc hk (fun e he => hv k0 e he)
    have hv1 : ∀ k e,
        lookupA (schedule_for_chat known serverTz loc st k0).1.reminders k = some e →
        (parse_hm e.start).isSome = true := by
      intro k e he
      rw [hrem1] at he
      exact hv k e he
    obtain ⟨hwf, hremf, hfilef, hqf⟩ :=
      ih (schedule_for_chat known serverTz loc st k0).1 hw1 hv1
    refine ⟨hwf, hremf.trans hrem1, hfilef.trans hfile1, ?_⟩
    intro k
    rw [hqf k]
    by_cases hmem : k ∈ rest
    · rw [if_pos hmem, if_pos (List.mem_cons_of_mem _ hmem), hrem1]
    · rw [if_neg hmem]
      by_cases hk0 : k = k0
      · subst hk0
        rw [if_pos (List.mem_cons_self k rest), hq1]
      · rw [if_neg (by simp [List.mem_cons, hk0, hmem]), hqo1 k hk0]

theorem foldSched_target (known : String → Bool) (serverTz : String) (loc : String → Instant)
    (hk : known serverTz = true) (k : Nat) :
    ∀ (keys : List Nat) (st : BotState), WfJobs st →
    (∀ e, lookupA st.reminders k = some e → (parse_hm e.start).isSome = true) →
    (lookupA st.reminders k).isSome = true →
    (k ∈ keys ∨ qcount st.queue k = 1) →
    qcount ((keys.foldl (fun st k => (schedule_for_chat known serverTz loc st k).1) st).queue)
      k = 1 := by
  intro keys
  induction keys with
  | nil =>
    intro st _ _ _ hmem
    rcases hmem with h | h
    · cases h
    · exact h
  | cons k0 rest ih =>
    intro st hw hv hsome hmem
    simp only [List.foldl_cons]
    obtain ⟨hw1, hrem1, hfile1, hqo1, hsucc⟩ :=
      schedule_for_chat_spec known serverTz loc st k0 hw
    have hv1 : ∀ e,
        lookupA (schedule_for_chat known serverTz loc st k0).1.reminders k = some e →
        (parse_hm e.start).isSome = true := by
      intro e he
      rw [hrem1] at he
      exact hv e he
    have hsome1 :
        (lookupA (schedule_for_chat known serverTz loc st k0).1.reminders k).isSome = true := by
      rw [hrem1]
      exact hsome
    apply ih (schedule_for_chat known serverTz loc st k0).1 hw1 hv1 hsome1
    by_cases hk0 : k0 = k
    · right
      subst hk0
      have h2 := (hsucc hk hv).2
      rw [hsome] at h2
      simpa using h2
    · rcases hmem with hm | hq
      · rcases List.mem_cons.mp hm with h | hm'
        · exact absurd h.symm hk0
        · exact Or.inl hm'
      · right
        rw [hqo1 k (fun h => hk0 h.symm)]
        exact hq

theorem reachInv_via_schedule (known : String → Bool) (serverTz : String)
    (loc : String → Instant) (hk : known serverTz = true) (s2 : BotState) (chatId : Nat)
    (hw : WfJobs s2)
    (hmain2 : ∀ k, k ≠ chatId →
      qcount s2.queue k = if (lookupA s2.reminders k).isSome then 1 else 0)
    (hvR : ∀ k e, lookupA s2.reminders k = some e → validEntry e = true)
    (hvF : ∀ k e, lookupA (load_data s2.file) k = some e → validEntry e = true)
    (hfs : s2.file = FileState.ok s2.reminders ∨ s2.reminders = []) :
    ReachInv (schedule_for_chat known serverTz loc s2 chatId).1 := by
  obtain ⟨hw', hrem', hfile', hqo', hsucc'⟩ :=
    schedule_for_chat_spec known serverTz loc s2 chatId hw
  have hvstart : ∀ e, lookupA s2.reminders chatId = some e →
      (parse_hm e.start).isSome = true := by
    intro e he
    have hv := hvR chatId e he
    simp only [validEntry, Bool.and_eq_true] at hv
    exact hv.1
  obtain ⟨hflag, hq1⟩ := hsucc' hk hvstart
  refine ⟨hw', ?_, ?_, ?_, ?_⟩
  · intro k
    rw [hrem']
    by_cases hck : k = chatId
    · subst hck
      rw [hq1]
    · rw [hqo' k hck, hmain2 k hck]
  · intro k e h
    rw [hrem'] at h
    exact hvR k e h
  · intro k e h
    rw [hfile'] at h
    exact hvF k e h
  · rw [hfile', hrem']
    exact hfs

theorem reachInv_via_fold (known : String → Bool) (serverTz : String)
    (loc : String → Instant) (hk : known serverTz = true) (s1 : BotState)
    (hw : WfJobs s1)
    (hvR : ∀ k e, lookupA s1.reminders k = some e → validEntry e = true)
    (hvF : ∀ k e, lookupA (load_data s1.file) k = some e → validEntry e = true)
    (hq0 : ∀ k, k ∉ s1.reminders.map Prod.fst → qcount s1.queue k = 0)
    (hfs : s1.file = FileState.ok s1.reminders ∨ s1.reminders = []) :
    ReachInv ((s1.reminders.map Prod.fst).foldl
      (fun st k => (schedule_for_chat known serverTz loc st k).1) s1) := by
  have hvstart : ∀ k e, lookupA s1.reminders k = some e →
      (parse_hm e.start).isSome = true := by
    intro k e he
    have hv := hvR k e he
    simp only [validEntry, Bool.and_eq_true] at hv
    exact hv.1
  obtain ⟨hwf, hremf, hfilef, hqf⟩ :=
    foldSched_spec known serverTz loc hk (s1.reminders.map Prod.fst) s1 hw hvstart
  refine ⟨hwf, ?_, ?_, ?_, ?_⟩
  · intro k
    rw [hremf, hqf k]
    by_cases hmem : k ∈ s1.reminders.map Prod.fst
    · rw [if_pos hmem]
    · rw [if_neg hmem, lookupA_none_of_not_mem _ _ hmem, hq0 k hmem]
      rfl
  · intro k e h
    rw [hremf] at h
    exact hvR k e h
  · intro k e h
    rw [hfilef] at h
    exact hvF k e h
  · rw [hfilef, hremf]
    exact hfs

theorem reachInv_preserved (known : String → Bool) (serverTz : String)
    (hk : known serverTz = true) (s : BotState) (hinv : ReachInv s)
    (op : Op) (hop : OpValid op) : ReachInv (applyOp known serverTz s op) := by
  obtain ⟨hw, hmain, hvR, hvF, hfs⟩ := hinv
  cases op with
  | configure chatId e loc =>
    have hval : validEntry e = true := hop
    have hvR2 : ∀ k e', lookupA (setKey s.reminders chatId e) k = some e' →
        validEntry e' = true := by
      intro k e' h
      rw [lookupA_setKey] at h
      split at h
      · injection h with h2
        rw [← h2]
        exact hval
      · exact hvR k e' h
    have hmain2 : ∀ k, k ≠ chatId → qcount s.queue k =
        if (lookupA (setKey s.reminders chatId e) k).isSome then 1 else 0 := by
      intro k hck
      rw [lookupA_setKey, if_neg (show ¬ chatId = k from fun h => hck h.symm)]
      exact hmain k
    exact reachInv_via_schedule known serverTz loc hk
      { reminders := setKey s.reminders chatId e, jobsMap := s.jobsMap, queue := s.queue,
        nextId := s.nextId, file := FileState.ok (setKey s.reminders chatId e) } chatId
      hw hmain2 hvR2 (fun k e' h => hvR2 k e' h) (Or.inl rfl)
  | stopOp chatId =>
    by_cases hex : (lookupA s.reminders chatId).isSome = true
    · have hstep : applyOp known serverTz s (Op.stopOp chatId) =
          cancelJob { reminders := removeKey s.reminders chatId, jobsMap := s.jobsMap,
                      queue := s.queue, nextId := s.nextId,
                      file := FileState.ok (removeKey s.reminders chatId) } chatId := by
        show stopStep s chatId = _
        unfold stopStep
        rw [if_pos hex]
      rw [hstep]
      obtain ⟨hwc, hq0, hqo, hsub⟩ := cancelJob_spec
        { reminders := removeKey s.reminders chatId, jobsMap := s.jobsMap, queue := s.queue,
          nextId := s.nextId, file := FileState.ok (removeKey s.reminders chatId) } chatId hw
      obtain ⟨hcrem, hcfile, _⟩ := cancelJob_reminders
        { reminders := removeKey s.reminders chatId, jobsMap := s.jobsMap, queue := s.queue,
          nextId := s.nextId, file := FileState.ok (removeKey s.reminders chatId) } chatId
      have hcrem' : (cancelJob
          { reminders := removeKey s.reminders chatId, jobsMap := s.jobsMap, queue := s.queue,
            nextId := s.nextId, file := FileState.ok (removeKey s.reminders chatId) }
          chatId).reminders = removeKey s.reminders chatId := hcrem
      have hcfile' : (cancelJob
          { reminders := removeKey s.reminders chatId, jobsMap := s.jobsMap, queue := s.queue,
            nextId := s.nextId, file := FileState.ok (removeKey s.reminders chatId) }
          chatId).file = FileState.ok (removeKey s.reminders chatId) := hcfile
      have hqo' : ∀ k', k' ≠ chatId → qcount (cancelJob
          { reminders := removeKey s.reminders chatId, jobsMap := s.jobsMap, queue := s.queue,
            nextId := s.nextId, file := FileState.ok (removeKey s.reminders chatId) }
          chatId).queue k' = qcount s.queue k' := hqo
      refine ⟨hwc, ?_, ?_, ?_, ?_⟩
      · intro k
        rw [hcrem', lookupA_removeKey]
        by_cases hck : k = chatId
        · rw [if_pos hck]
          subst hck
          rw [hq0]
          rfl
        · rw [if_neg hck, hqo' k hck, hmain k]
      · intro k e h
        rw [hcrem', lookupA_removeKey] at h
        split at h
        · exact Option.noConfusion h
        · exact hvR k e h
      · intro k e h
        rw [hcfile'] at h
        have h' : lookupA (removeKey s.reminders chatId) k = some e := h
        rw [lookupA_removeKey] at h'
        split at h'
        · exact Option.noConfusion h'
        · exact hvR k e h'
      · left
        rw [hcfile', hcrem']
    · have hstep : applyOp known serverTz s (Op.stopOp chatId) = cancelJob s chatId := by
        show stopStep s chatId = _
        unfold stopStep
        rw [if_neg hex]
      rw [hstep]
      obtain ⟨hwc, hq0, hqo, hsub⟩ := cancelJob_spec s chatId hw
      obtain ⟨hcrem, hcfile, _⟩ := cancelJob_reminders s chatId
      refine ⟨hwc, ?_, ?_, ?_, ?_⟩
      · intro k
        rw [hcrem]
        by_cases hck : k = chatId
        · have hnone : (lookupA s.reminders chatId).isSome = false := by
            cases hb : (lookupA s.reminders chatId).isSome
            · rfl
            · exact absurd hb hex
          subst hck
          rw [hq0, hnone]
          rfl
        · rw [hqo k hck, hmain k]
      · intro k e h
        rw [hcrem] at h
        exact hvR k e h
      · intro k e h
        rw [hcfile] at h
        exact hvF k e h
      · rw [hcfile, hcrem]
        exact hfs
  | restoreOp loc =>
    have hq0 : ∀ k, k ∉ (load_data s.file).map Prod.fst → qcount s.queue k = 0 := by
      intro k hmem
      rcases hfs with hok | hempty
      · have hl : load_data s.file = s.reminders := by
          rw [hok]
          rfl
        rw [hl] at hmem
        rw [hmain k, lookupA_none_of_not_mem _ _ hmem]
        rfl
      · rw [hmain k, hempty]
        rfl
    have hfs2 : s.file = FileState.ok (load_data s.file) ∨ load_data s.file = [] := by
      cases hsf : s.file with
      | ok m =>
        left
        rfl
      | missing =>
        right
        rfl
      | corrupt =>
        right
        rfl
    exact reachInv_via_fold known serverTz loc hk
      { reminders := load_data s.file, jobsMap := s.jobsMap, queue := s.queue,
        nextId := s.nextId, file := s.file }
      hw (fun k e h => hvF k e h) (fun k e h => hvF k e h) hq0 hfs2

theorem wfJobs_of_empty (s : BotState) (hjm : s.jobsMap = []) (hq : s.queue = []) :
    WfJobs s := by
  refine ⟨?_, ?_, ?_⟩
  · intro k j
    rw [hjm]
    constructor
    · intro h
      exact Option.noConfusion h
    · rintro ⟨jb, hjb, _, _⟩
      rw [hq] at hjb
      cases hjb
  · intro jb hjb
    rw [hq] at hjb
    cases hjb
  · intro k
    rw [hq]
    exact Nat.zero_le 1

/-! ### C6: exactly one live timer per stored record -/

/-- C6: starting from process start (empty dicts, no live jobs, any
    stored file whose entries are conversation-validated), after any
    sequence of configure, stop and restore operations every chat with a
    reminder entry owns exactly one live job and every chat without one
    owns none — in particular re-configuring replaces rather than stacks
    the job. -/
theorem c6_exactly_one_timer (known : String → Bool) (serverTz : String) (file : FileState)
    (ops : List Op) (hk : known serverTz = true)
    (hvF : ∀ k e, lookupA (load_data file) k = some e → validEntry e = true)
    (hops : ∀ op ∈ ops, OpValid op) :
    ∀ k, qcount (applyOps known serverTz (initState file) ops).queue k =
      if (lookupA (applyOps known serverTz (initState file) ops).reminders k).isSome
      then 1 else 0 := by
  have hinit : ReachInv (initState file) := by
    refine ⟨⟨?_, ?_, ?_⟩, ?_, ?_, hvF, Or.inr rfl⟩
    · intro k j
      constructor
      · intro h
        exact Option.noConfusion h
      · rintro ⟨jb, hjb, _, _⟩
        cases hjb
    · intro jb hjb
      cases hjb
    · intro k
      exact Nat.zero_le 1
    · intro k
      rfl
    · intro k e h
      exact Option.noConfusion h
  have hall : ∀ (l : List Op) (st : BotState), ReachInv st → (∀ op ∈ l, OpValid op) →
      ReachInv (applyOps known serverTz st l) := by
    intro l
    induction l with
    | nil =>
      intro st h _
      exact h
    | cons op rest ih =>
      intro st h hl
      have h1 := reachInv_preserved known serverTz hk st h op (hl op (List.mem_cons_self op rest))
      exact ih (applyOp known serverTz st op) h1 (fun o ho => hl o (List.mem_cons_of_mem _ ho))
  exact (hall ops (initState file) hinit hops).2.1

theorem c6_exactly_one_timer_witness :
    qcount (applyOps (fun _ => true) "UTC" (initState FileState.missing)
      [Op.configure 1 (Entry.mk (some "UTC") "09:00" "18:00" 60) (fun _ => Instant.mk 0 0),
       Op.configure 1 (Entry.mk (some "UTC") "08:00" "20:00" 30) (fun _ => Instant.mk 0 0),
       Op.stopOp 2,
       Op.restoreOp (fun _ => Instant.mk 0 0)]).queue 1 =
    if (lookupA (applyOps (fun _ => true) "UTC" (initState FileState.missing)
      [Op.configure 1 (Entry.mk (some "UTC") "09:00" "18:00" 60) (fun _ => Instant.mk 0 0),
       Op.configure 1 (Entry.mk (some "UTC") "08:00" "20:00" 30) (fun _ => Instant.mk 0 0),
       Op.stopOp 2,
       Op.restoreOp (fun _ => Instant.mk 0 0)]).reminders 1).isSome
    then 1 else 0 :=
  c6_exactly_one_timer (fun _ => true) "UTC" FileState.missing _ rfl
    (fun k e h => Option.noConfusion h)
    (by
      intro op hop
      simp only [List.mem_cons, List.not_mem_nil, or_false] at hop
      rcases hop with rfl | rfl | rfl | rfl
      · exact (by decide : validEntry (Entry.mk (some "UTC") "09:00" "18:00" 60) = true)
      · exact (by decide : validEntry (Entry.mk (some "UTC") "08:00" "20:00" 30) = true)
      · exact trivial
      · exact trivial)
    1

/-! ### C9: per-subscriber isolation during restore -/

/-- C9: during `restore` at process start (no live jobs yet), every
    stored chat whose own entry's start time parses ends up with exactly
    one live job, no matter how many other entries fail to schedule (the
    per-chat `try/except` makes the loop continue past failures). -/
theorem c9_restore_isolates_failures (known : String → Bool) (serverTz : String)
    (loc : String → Instant) (s : BotState) (k : Nat) (e : Entry)
    (hk : known serverTz = true)
    (hjm : s.jobsMap = []) (hq : s.queue = [])
    (hlook : lookupA (load_data s.file) k = some e)
    (hstart : (parse_hm e.start).isSome = true) :
    qcount (applyOp known serverTz s (Op.restoreOp loc)).queue k = 1 := by
  have hw1 : WfJobs
      { reminders := load_data s.file, jobsMap := s.jobsMap, queue := s.queue,
        nextId := s.nextId, file := s.file } :=
    wfJobs_of_empty _ hjm hq
  have hv' : ∀ e', lookupA (load_data s.file) k = some e' →
      (parse_hm e'.start).isSome = true := by
    intro e' he'
    rw [hlook] at he'
    injection he' with h2
    rw [← h2]
    exact hstart
  have hsome' : (lookupA (load_data s.file) k).isSome = true := by
    rw [hlook]
    rfl
  exact foldSched_target known serverTz loc hk k ((load_data s.file).map Prod.fst)
    { reminders := load_data s.file, jobsMap := s.jobsMap, queue := s.queue,
      nextId := s.nextId, file := s.file } hw1 hv' hsome'
    (Or.inl (mem_keys_of_lookupA _ _ _ hlook))

theorem c9_restore_isolates_failures_witness :
    qcount (applyOp (fun _ => true) "UTC" (initState (FileState.ok
      [(1, Entry.mk (some "UTC") "09:00" "18:00" 60),
       (2, Entry.mk (some "UTC") "9am" "18:00" 60),
       (3, Entry.mk (some "UTC") "10:00" "20:00" 30)]))
      (Op.restoreOp (fun _ => Instant.mk 0 0))).queue 3 = 1 :=
  c9_restore_isolates_failures (fun _ => true) "UTC" (fun _ => Instant.mk 0 0)
    (initState (FileState.ok
      [(1, Entry.mk (some "UTC") "09:00" "18:00" 60),
       (2, Entry.mk (some "UTC") "9am" "18:00" 60),
       (3, Entry.mk (some "UTC") "10:00" "20:00" 30)]))
    3 (Entry.mk (some "UTC") "10:00" "20:00" 30) rfl rfl rfl (by decide) (by decide)

/-! ### C4: each firing re-reads the current record -/

/-- C4: a firing of `reminder_job` decides from the reminders mapping as
    it is at fire time: with no entry for the chat it does nothing
    (`noRecord`); with an entry whose bounds parse it invokes delivery
    exactly when the current local time in the resolved timezone is
    inside the window, and does nothing (`skipped`) otherwise; and the
    entry a firing sees after a configure operation is the newly
    configured one, not a copy captured at timer creation. -/
theorem c4_fire_reads_current_record (known : String → Bool) (serverTz : String)
    (loc : String → Instant) (reminders : List (Nat × Entry)) (chatId : Nat)
    (hk : known serverTz = true) :
    (lookupA reminders chatId = none →
      reminder_job known serverTz loc reminders chatId = JobOutcome.noRecord) ∧
    (∀ e start_t end_t, lookupA reminders chatId = some e →
      parse_hm e.start = some start_t → parse_hm e.endT = some end_t →
      ∃ tzName, resolveTz known serverTz e.tz = some tzName ∧
        reminder_job known serverTz loc reminders chatId =
          (if is_within_window (loc tzName).sec start_t end_t then JobOutcome.delivered
           else JobOutcome.skipped)) ∧
    (∀ (s : BotState) (e : Entry) (loc' : String → Instant),
      lookupA (applyOp known serverTz s (Op.configure chatId e loc')).reminders chatId =
        some e) := by
  refine ⟨?_, ?_, ?_⟩
  · intro h
    simp only [reminder_job, h]
  · intro e start_t end_t he hps hpe
    cases hrt : resolveTz known serverTz e.tz with
    | none =>
      exfalso
      have hsome := resolveTz_isSome known serverTz e.tz hk
      rw [hrt] at hsome
      simp at hsome
    | some tzName =>
      refine ⟨tzName, rfl, ?_⟩
      simp only [reminder_job, he, hrt, hps, hpe]
  · intro s e loc'
    show lookupA (schedule_for_chat known serverTz loc'
      { reminders := setKey s.reminders chatId e, jobsMap := s.jobsMap, queue := s.queue,
        nextId := s.nextId, file := FileState.ok (setKey s.reminders chatId e) }
      chatId).1.reminders chatId = some e
    rw [(schedule_for_chat_reminders known serverTz loc' _ chatId).1]
    show lookupA (setKey s.reminders chatId e) chatId = some e
    rw [lookupA_setKey, if_pos rfl]

theorem c4_fire_reads_current_record_witness :
    ∃ tzName,
      resolveTz (fun _ => true) "UTC" (Entry.mk (some "Asia/Dhaka") "09:00" "18:00" 60).tz =
        some tzName ∧
      reminder_job (fun _ => true) "UTC" (fun _ => Instant.mk 0 36000)
        [(7, Entry.mk (some "Asia/Dhaka") "09:00" "18:00" 60)] 7 =
        (if is_within_window ((fun _ : String => Instant.mk 0 36000) tzName).sec 32400 64800
         then JobOutcome.delivered else JobOutcome.skipped) :=
  (c4_fire_reads_current_record (fun _ => true) "UTC" (fun _ => Instant.mk 0 36000)
    [(7, Entry.mk (some "Asia/Dhaka") "09:00" "18:00" 60)] 7 rfl).2.1
    (Entry.mk (some "Asia/Dhaka") "09:00" "18:00" 60) 32400 64800 rfl (by decide) (by decide)

/-! ### C10: timezone fallback to the server default -/

/-- C10: when a stored timezone name is unknown or the field is absent,
    neither scheduling nor firing fails (given the server default — the
    `TZ` environment value, which defaults to `"UTC"` — is a known
    zone): `resolveTz` silently yields the server timezone, scheduling
    still succeeds, and the firing decision is evaluated on the local
    clock of the server timezone. -/
theorem c10_unknown_tz_falls_back (env : Option String) (known : String → Bool)
    (tzField : Option String) (hk : known (serverTzOf env) = true) :
    serverTzOf none = "UTC" ∧
    (resolveTz known (serverTzOf env) tzField).isSome = true ∧
    (known (tzField.getD (serverTzOf env)) = false →
      resolveTz known (serverTzOf env) tzField = some (serverTzOf env)) ∧
    (∀ (loc : String → Instant) (s : BotState) (chatId : Nat) (e : Entry),
      lookupA s.reminders chatId = some e →
      (parse_hm e.start).isSome = true →
      (schedule_for_chat known (serverTzOf env) loc s chatId).2 = true) ∧
    (∀ (loc : String → Instant) (reminders : List (Nat × Entry)) (chatId : Nat) (e : Entry)
        (start_t end_t : Nat),
      lookupA reminders chatId = some e → e.tz = tzField →
      known (tzField.getD (serverTzOf env)) = false →
      parse_hm e.start = some start_t → parse_hm e.endT = some end_t →
      reminder_job known (serverTzOf env) loc reminders chatId =
        (if is_within_window (loc (serverTzOf env)).sec start_t end_t
         then JobOutcome.delivered else JobOutcome.skipped)) := by
  refine ⟨rfl, resolveTz_isSome known (serverTzOf env) tzField hk, ?_, ?_, ?_⟩
  · intro hun
    exact resolveTz_fallback known (serverTzOf env) tzField hk hun
  · intro loc s chatId e he hps
    obtain ⟨hrem, _, _⟩ := cancelJob_reminders s chatId
    rw [← hrem] at he
    cases hrt : resolveTz known (serverTzOf env) e.tz with
    | none =>
      exfalso
      have hsome := resolveTz_isSome known (serverTzOf env) e.tz hk
      rw [hrt] at hsome
      simp at hsome
    | some tzName =>
      cases hp : parse_hm e.start with
      | none =>
        rw [hp] at hps
        simp at hps
      | some start_t =>
        simp only [schedule_for_chat, he, hrt, hp]
  · intro loc reminders chatId e start_t end_t he htz hun hps hpe
    have hrt : resolveTz known (serverTzOf env) e.tz = some (serverTzOf env) := by
      rw [htz]
      exact resolveTz_fallback known (serverTzOf env) tzField hk hun
    simp only [reminder_job, he, hrt, hps, hpe]

theorem c10_unknown_tz_falls_back_witness :
    reminder_job (fun z => z == "UTC") (serverTzOf none) (fun _ => Instant.mk 0 36000)
      [(7, Entry.mk (some "Mars/Olympus") "09:00" "18:00" 60)] 7 =
      (if is_within_window ((fun _ : String => Instant.mk 0 36000) (serverTzOf none)).sec
          32400 64800
       then JobOutcome.delivered else JobOutcome.skipped) :=
  (c10_unknown_tz_falls_back none (fun z => z == "UTC") (some "Mars/Olympus")
    (by decide)).2.2.2.2 (fun _ => Instant.mk 0 36000)
    [(7, Entry.mk (some "Mars/Olympus") "09:00" "18:00" 60)] 7
    (Entry.mk (some "Mars/Olympus") "09:00" "18:00" 60) 32400 64800 (by decide) rfl
    (by decide) (by decide) (by decide)
